import Mathlib

/-
Verification development for the fabric CLI configuration resolver
(internal/cli/flags.go).

Shallow embedding conventions:
  - Go strings are Lean String values; all flag names and config keys in this
    program are ASCII, so Go byte indices coincide with character indices.
  - Go float64 fields are modelled by exact rationals (Rat); the numeric
    literals involved in the claims are small decimals where real-number
    arithmetic and float64 arithmetic agree on the observed results.
  - Go int fields are modelled by unbounded Int; the claims involve only
    values far from the int64 boundaries.
  - The go-flags structured parse (library code) is an oracle input: theorems
    quantify over its output, a typed Flags vector plus leftover positionals.
  - The filesystem and the YAML syntactic layer are modelled by a map from
    paths to file outcomes (absent, malformed, or a parsed key/value mapping);
    decoding a parsed mapping into the Flags struct follows yaml.v3 semantics
    (strict kinds, int-to-float widening allowed, any key that fails to decode
    makes Unmarshal return a non-nil error).
-/

set_option autoImplicit false

namespace Fabric

/-- The declared value kinds of Flags struct fields. -/
inductive Kind where
  | str
  | int
  | float
  | bool
  | strMap
  | strList
  deriving DecidableEq, Repr

/-- One field of the Flags struct: Go field name, short tag, long tag, yaml
tag (empty string means the tag is absent, matching reflect Tag.Get), and the
declared kind. -/
structure FlagField where
  name : String
  shortTag : String
  longTag : String
  yamlTag : String
  kind : Kind
  deriving DecidableEq, Repr

/-- The Flags struct of internal/cli/flags.go, field by field and in source
order: name, short tag, long tag, yaml tag, kind. -/
def schema : List FlagField := [
  ⟨"Pattern", "p", "pattern", "pattern", .str⟩,
  ⟨"PatternVariables", "v", "variable", "", .strMap⟩,
  ⟨"Context", "C", "context", "", .str⟩,
  ⟨"Session", "", "session", "", .str⟩,
  ⟨"Attachments", "a", "attachment", "", .strList⟩,
  ⟨"Setup", "S", "setup", "", .bool⟩,
  ⟨"Temperature", "t", "temperature", "temperature", .float⟩,
  ⟨"TopP", "T", "topp", "topp", .float⟩,
  ⟨"Stream", "s", "stream", "stream", .bool⟩,
  ⟨"PresencePenalty", "P", "presencepenalty", "presencepenalty", .float⟩,
  ⟨"Raw", "r", "raw", "raw", .bool⟩,
  ⟨"FrequencyPenalty", "F", "frequencypenalty", "frequencypenalty", .float⟩,
  ⟨"ListPatterns", "l", "listpatterns", "", .bool⟩,
  ⟨"ListAllModels", "L", "listmodels", "", .bool⟩,
  ⟨"ListAllContexts", "x", "listcontexts", "", .bool⟩,
  ⟨"ListAllSessions", "X", "listsessions", "", .bool⟩,
  ⟨"UpdatePatterns", "U", "updatepatterns", "", .bool⟩,
  ⟨"Message", "", "", "", .str⟩,
  ⟨"Copy", "c", "copy", "", .bool⟩,
  ⟨"Model", "m", "model", "model", .str⟩,
  ⟨"ModelContextLength", "", "modelContextLength", "modelContextLength", .int⟩,
  ⟨"Output", "o", "output", "", .str⟩,
  ⟨"OutputSession", "", "output-session", "", .bool⟩,
  ⟨"LatestPatterns", "n", "latest", "", .str⟩,
  ⟨"ChangeDefaultModel", "d", "changeDefaultModel", "", .bool⟩,
  ⟨"YouTube", "y", "youtube", "", .str⟩,
  ⟨"YouTubePlaylist", "", "playlist", "", .bool⟩,
  ⟨"YouTubeTranscript", "", "transcript", "", .bool⟩,
  ⟨"YouTubeTranscriptWithTimestamps", "", "transcript-with-timestamps", "", .bool⟩,
  ⟨"YouTubeComments", "", "comments", "", .bool⟩,
  ⟨"YouTubeMetadata", "", "metadata", "", .bool⟩,
  ⟨"Language", "g", "language", "", .str⟩,
  ⟨"ScrapeURL", "u", "scrape_url", "", .str⟩,
  ⟨"ScrapeQuestion", "q", "scrape_question", "", .str⟩,
  ⟨"Seed", "e", "seed", "seed", .int⟩,
  ⟨"WipeContext", "w", "wipecontext", "", .str⟩,
  ⟨"WipeSession", "W", "wipesession", "", .str⟩,
  ⟨"PrintContext", "", "printcontext", "", .str⟩,
  ⟨"PrintSession", "", "printsession", "", .str⟩,
  ⟨"HtmlReadability", "", "readability", "", .bool⟩,
  ⟨"InputHasVars", "", "input-has-vars", "", .bool⟩,
  ⟨"DryRun", "", "dry-run", "", .bool⟩,
  ⟨"Serve", "", "serve", "", .bool⟩,
  ⟨"ServeOllama", "", "serveOllama", "", .bool⟩,
  ⟨"ServeAddress", "", "address", "", .str⟩,
  ⟨"ServeAPIKey", "", "api-key", "", .str⟩,
  ⟨"Config", "", "config", "", .str⟩,
  ⟨"Version", "", "version", "", .bool⟩,
  ⟨"ListExtensions", "", "listextensions", "", .bool⟩,
  ⟨"AddExtension", "", "addextension", "", .str⟩,
  ⟨"RemoveExtension", "", "rmextension", "", .str⟩,
  ⟨"Strategy", "", "strategy", "", .str⟩,
  ⟨"ListStrategies", "", "liststrategies", "", .bool⟩,
  ⟨"ListVendors", "", "listvendors", "", .bool⟩,
  ⟨"ShellCompleteOutput", "", "shell-complete-list", "", .bool⟩,
  ⟨"Search", "", "search", "", .bool⟩,
  ⟨"SearchLocation", "", "search-location", "", .str⟩,
  ⟨"ImageFile", "", "image-file", "", .str⟩,
  ⟨"ImageSize", "", "image-size", "", .str⟩,
  ⟨"ImageQuality", "", "image-quality", "", .str⟩,
  ⟨"ImageCompression", "", "image-compression", "", .int⟩,
  ⟨"ImageBackground", "", "image-background", "", .str⟩,
  ⟨"SuppressThink", "", "suppress-think", "suppressThink", .bool⟩,
  ⟨"ThinkStartTag", "", "think-start-tag", "thinkStartTag", .str⟩,
  ⟨"ThinkEndTag", "", "think-end-tag", "thinkEndTag", .str⟩,
  ⟨"DisableResponsesAPI", "", "disable-responses-api", "disableResponsesAPI", .bool⟩,
  ⟨"Voice", "", "voice", "voice", .str⟩,
  ⟨"ListGeminiVoices", "", "list-gemini-voices", "", .bool⟩]

/-- Length of a Go string; all strings involved are ASCII, where the Go byte
length equals the character count. -/
def strLen (s : String) : Nat := s.data.length

/-- Drop the first n characters (Go slicing or strings.TrimPrefix once the
prefix is known to be present). -/
def strDrop (s : String) (n : Nat) : String := ⟨s.data.drop n⟩

/-- Keep the first n characters (Go slicing flag[:i]). -/
def strTake (s : String) (n : Nat) : String := ⟨s.data.take n⟩

/-- strings.HasPrefix. -/
def strStartsWith (s p : String) : Bool := p.data.isPrefixOf s.data

/-- strings.Index for the separator character: index of the first occurrence
of the equals sign, none when absent (Go returns -1). -/
def eqIndex (s : String) : Option Nat :=
  s.data.findIdx? (fun c => c == '=')

/-- The shared tail of both branches of extractFlag: after the prefix is
stripped, cut at the first equals sign when its index is strictly positive
(Go: if i := strings.Index(flag, eq); i > 0). -/
def cutEq (flag : String) : String :=
  match eqIndex flag with
  | some i => if 0 < i then strTake flag i else flag
  | none => flag

/-- extractFlag (flags.go lines 211 to 225): long form strips the two-dash
prefix; short form requires a single dash and length above one; anything else
yields the empty string. -/
def extractFlag (arg : String) : String :=
  if strStartsWith arg "--" then cutEq (strDrop arg 2)
  else if strStartsWith arg "-" && strLen arg > 1 then cutEq (strDrop arg 1)
  else ""

/-- The flag-name to yaml-tag map of Init (flags.go lines 109 to 126), built
by iterating the struct fields in order and, for each field carrying a yaml
tag, inserting its long and short tags; insertion overwrites, matching Go map
assignment. -/
def flagToYamlTag : String → Option String :=
  schema.foldl
    (fun m f =>
      if f.yamlTag ≠ "" then
        let m1 := if f.longTag ≠ "" then
            (fun x => if x = f.longTag then some f.yamlTag else m x) else m
        if f.shortTag ≠ "" then
          (fun x => if x = f.shortTag then some f.yamlTag else m1 x) else m1
      else m)
    (fun _ => none)

/-- One iteration of the pre-scan loop of Init (flags.go lines 129 to 138):
extract a flag name from the argument and record the mapped yaml tag when one
exists; the accumulator is the set of used yaml tags, with list membership as
set insertion (Go map keyed insertion). -/
def scanStep (used : List String) (arg : String) : List String :=
  let flag := extractFlag arg
  if flag ≠ "" then
    match flagToYamlTag flag with
    | some y => if y ∈ used then used else used ++ [y]
    | none => used
  else used

/-- The pre-scan of Init: fold the step over the raw arguments starting from
the empty set. -/
def usedFlagsList (args : List String) : List String :=
  args.foldl scanStep []

/-- Runtime values of Flags struct fields. Go float64 is modelled by exact
rationals and Go int by unbounded integers (the claims only involve values far
from the 64-bit boundaries and small decimal literals). -/
inductive FieldValue where
  | str (s : String)
  | int (n : Int)
  | float (q : Rat)
  | bool (b : Bool)
  | strMap (m : List (String × String))
  | strList (l : List String)
  deriving DecidableEq, Repr

/-- The reflect kind of a runtime value. -/
def FieldValue.kind : FieldValue → Kind
  | .str _ => .str
  | .int _ => .int
  | .float _ => .float
  | .bool _ => .bool
  | .strMap _ => .strMap
  | .strList _ => .strList

/-- The Go zero value of each kind, as produced by a fresh Flags literal. -/
def zeroOfKind : Kind → FieldValue
  | .str => .str ""
  | .int => .int 0
  | .float => .float (mkRat 0 1)
  | .bool => .bool false
  | .strMap => .strMap []
  | .strList => .strList []

/-- A Flags value is the vector of its field values in source order; it is
well typed when each value has the declared kind of its field. -/
def WellTyped (v : List FieldValue) : Prop :=
  v.map FieldValue.kind = schema.map FlagField.kind

/-- Numeric value of a digit run. -/
def digitsVal (ds : List Char) : Nat :=
  ds.foldl (fun n c => 10 * n + (c.toNat - 48)) 0

/-- Optional leading sign; returns (isNegative, remainder). -/
def parseSign : List Char → Bool × List Char
  | '+' :: cs => (false, cs)
  | '-' :: cs => (true, cs)
  | cs => (false, cs)

/-- Exponent digits with optional sign, which must consume the whole
remainder. -/
def parseExpDigits (cs : List Char) : Option Int :=
  let p := parseSign cs
  let dr := p.2.span Char.isDigit
  if dr.1 ≠ [] ∧ dr.2 = [] then
    some (if p.1 then -(digitsVal dr.1 : Int) else (digitsVal dr.1 : Int))
  else none

/-- Optional exponent part: empty remainder means exponent zero; anything
else must be a full exponent clause. -/
def parseExp10 : List Char → Option Int
  | [] => some 0
  | 'e' :: cs => parseExpDigits cs
  | 'E' :: cs => parseExpDigits cs
  | _ => none

/-- The rational value of a signed decimal with mantissa digits n and a net
power-of-ten exponent e (exponent clause minus fraction length). Built with
mkRat so that the kernel can evaluate it. -/
def decToRat (neg : Bool) (n : Nat) (e : Int) : Rat :=
  let m : Int := if neg then -(n : Int) else (n : Int)
  if 0 ≤ e then mkRat (m * ((10 ^ e.toNat : Nat) : Int)) 1
  else mkRat m (10 ^ (-e).toNat)

/-- Model of strconv.ParseFloat(s, 64) on the decimal-literal grammar
(optional sign, digits with optional fraction point, optional decimal
exponent). The result is the exact rational value; special spellings such as
Inf or NaN, hexadecimal floats and digit-separating underscores are outside
the model, as is rounding to binary — the claims only evaluate this on small
decimal literals where the modelled and the actual behavior agree. -/
def parseFloat (s : String) : Option Rat :=
  let p := parseSign s.data
  let ipr := p.2.span Char.isDigit
  let fpm : Option (List Char × List Char) :=
    match ipr.2 with
    | '.' :: t => some (t.span Char.isDigit)
    | _ => none
  let fp := match fpm with
    | some x => x.1
    | none => []
  let rest := match fpm with
    | some x => x.2
    | none => ipr.2
  if ipr.1 = [] ∧ fp = [] then none
  else
    match parseExp10 rest with
    | none => none
    | some e =>
      some (decToRat p.1 (digitsVal (ipr.1 ++ fp)) (e - (fp.length : Int)))

/-- Model of strconv.ParseInt(s, 10, 64): optional sign then decimal digits
consuming the whole string (the 64-bit range check is omitted; the claims stay
far from the boundaries). -/
def parseInt10 (s : String) : Option Int :=
  let p := parseSign s.data
  let dr := p.2.span Char.isDigit
  if dr.1 ≠ [] ∧ dr.2 = [] then
    some (if p.1 then -(digitsVal dr.1 : Int) else (digitsVal dr.1 : Int))
  else none

/-- strconv.ParseBool: the exact list of accepted spellings. -/
def parseBool (s : String) : Option Bool :=
  if s ∈ ["1", "t", "T", "TRUE", "true", "True"] then some true
  else if s ∈ ["0", "f", "F", "FALSE", "false", "False"] then some false
  else none

/-- Truncation toward zero, the Go int64(f) conversion on an in-range
value. -/
def ratTrunc (q : Rat) : Int := q.num.tdiv (q.den : Int)

/-- assignWithConversion (flags.go lines 227 to 258): only a string source
can convert; the target kind selects float-then-int parsing for int targets,
float parsing for float targets and boolean parsing for bool targets; every
other combination is an error. Returns none for the error case — the caller
logs, keeps the previous value and continues. -/
def assignWithConversion (target source : FieldValue) : Option FieldValue :=
  match source with
  | .str s =>
    match target.kind with
    | .int =>
      match parseFloat s with
      | some q => some (.int (ratTrunc q))
      | none =>
        match parseInt10 s with
        | some n => some (.int n)
        | none => none
    | .float =>
      match parseFloat s with
      | some q => some (.float q)
      | none => none
    | .bool =>
      match parseBool s with
      | some b => some (.bool b)
      | none => none
    | _ => none
  | _ => none

/-- One iteration of the YAML-apply loop of Init (flags.go lines 170 to 189)
for a single field: fields without a yaml tag and fields whose yaml tag is in
the used set keep the parsed value; otherwise a kind mismatch goes through
assignWithConversion (keeping the old value when conversion fails) and equal
kinds are assigned directly. CanSet is true for every field, all being
exported. -/
def mergeOne (f : FlagField) (rv yv : FieldValue) (used : List String) : FieldValue :=
  if f.yamlTag ≠ "" then
    if f.yamlTag ∈ used then rv
    else
      if yv.kind ≠ rv.kind then
        match assignWithConversion rv yv with
        | some v => v
        | none => rv
      else yv
  else rv

/-- The full YAML-apply loop: fields, parsed values and decoded values in
parallel (the two value vectors always have the schema shape in Go, both
being Flags structs; on a shape mismatch the model keeps the parsed
values). -/
def mergeFields : List FlagField → List FieldValue → List FieldValue → List String → List FieldValue
  | f :: fs, rv :: rvs, yv :: yvs, used => mergeOne f rv yv used :: mergeFields fs rvs yvs used
  | _, rvs, _, _ => rvs

/-- Index of a field in the schema by Go field name. -/
def fieldIdx (name : String) : Nat := schema.findIdx (fun f => f.name == name)

/-- Default placeholder value for out-of-range access. -/
def dfv : FieldValue := .str ""

/-- Read a field of a Flags vector by Go field name. -/
def getF (v : List FieldValue) (name : String) : FieldValue :=
  v.getD (fieldIdx name) dfv

/-- Write a field of a Flags vector by Go field name. -/
def setF (v : List FieldValue) (name : String) (x : FieldValue) : List FieldValue :=
  v.set (fieldIdx name) x

/-- Read a string field; non-string shapes (impossible for a well-typed
vector) read as the empty string. -/
def getStr (v : List FieldValue) (name : String) : String :=
  match getF v name with
  | .str s => s
  | _ => ""

/-- A scalar in a parsed YAML document. The yaml-tagged fields of Flags are
all of string, int, float or bool kind, so scalars suffice for the config
keys the struct can accept. -/
inductive YamlVal where
  | str (s : String)
  | int (n : Int)
  | float (q : Rat)
  | bool (b : Bool)
  deriving DecidableEq, Repr

/-- yaml.v3 decoding of one scalar into a typed struct field: kinds must
match, except that an integer node widens into a float64 field; in
particular a quoted string node does not decode into an int, float or bool
field (yaml: cannot unmarshal !!str into int), and decoding failures make
Unmarshal return a non-nil error. -/
def decodeScalar (k : Kind) (y : YamlVal) : Option FieldValue :=
  match k, y with
  | .str, .str s => some (.str s)
  | .int, .int n => some (.int n)
  | .float, .float q => some (.float q)
  | .float, .int n => some (.float (mkRat n 1))
  | .bool, .bool b => some (.bool b)
  | _, _ => none

/-- First binding of a key in a parsed YAML mapping. -/
def docLookup (doc : List (String × YamlVal)) (k : String) : Option YamlVal :=
  match doc with
  | [] => none
  | (k2, v) :: t => if k2 == k then some v else docLookup t k

/-- yaml.Unmarshal(data, &Flags{}) on an already parsed mapping: the struct
starts at zero values, each yaml-tagged field present in the mapping is
decoded by kind, keys matching no yaml tag are ignored, absent keys leave
the zero value in place, and any field that fails to decode makes the whole
unmarshal return an error (yaml.v3 TypeError; the call site in
loadYAMLConfig treats any non-nil error as fatal, so the partially decoded
struct is never observed). -/
def yamlDecodeFields : List FlagField → List (String × YamlVal) → Except Unit (List FieldValue)
  | [], _ => .ok []
  | f :: fs, doc =>
    let v : Except Unit FieldValue :=
      if f.yamlTag ≠ "" then
        match docLookup doc f.yamlTag with
        | none => .ok (zeroOfKind f.kind)
        | some y =>
          match decodeScalar f.kind y with
          | some fv => .ok fv
          | none => .error ()
      else .ok (zeroOfKind f.kind)
    match v, yamlDecodeFields fs doc with
    | .ok fv, .ok rest => .ok (fv :: rest)
    | _, _ => .error ()

/-- Outcome of looking up a path in the filesystem and running the YAML
syntactic layer over the bytes: the file is either malformed as YAML or a
parsed mapping. -/
inductive FileContent where
  | malformed
  | parsed (doc : List (String × YamlVal))

/-- The filesystem: none means the path does not resolve to an existing
file. -/
def FileSystem := String → Option FileContent

/-- The two fatal outcomes of loadYAMLConfig. -/
inductive ConfigError where
  | notFound
  | parseError
  deriving DecidableEq, Repr

/-- loadYAMLConfig (flags.go lines 260 to 283): a missing file is the
config-not-found error; unreadable bytes or a failing unmarshal are the
config-parse error. util.GetAbsolutePath is path normalization outside this
model; paths are compared as given. -/
def loadYAMLConfig (fs : FileSystem) (path : String) : Except ConfigError (List FieldValue) :=
  match fs path with
  | none => .error .notFound
  | some .malformed => .error .parseError
  | some (.parsed doc) =>
    match yamlDecodeFields schema doc with
    | .ok v => .ok v
    | .error _ => .error .parseError

/-- How the stream of bufio reads on stdin ends: end-of-stream with a final
unterminated chunk, or a failure other than end-of-stream. -/
inductive ReadEnd where
  | eof (rest : String)
  | ioErr
  deriving DecidableEq, Repr

/-- Piped standard input as the loop in readStdin observes it: a sequence of
successful newline-terminated reads, then the final read outcome. -/
structure StdinSrc where
  lines : List String
  fin : ReadEnd
  deriving DecidableEq, Repr

/-- The accumulation loop of readStdin (flags.go lines 286 to 303): each
successful read is appended to the builder; an end-of-stream read appends its
partial chunk and stops; any other failure discards the builder and reports
the error. -/
def readStdinAux (acc : String) : List String → ReadEnd → Except Unit String
  | [], .eof rest => .ok (acc ++ rest)
  | [], .ioErr => .error ()
  | l :: ls, e => readStdinAux (acc ++ l) ls e

/-- readStdin: run the loop from the empty builder. -/
def readStdin (s : StdinSrc) : Except Unit String :=
  readStdinAux "" s.lines s.fin

/-- AppendMessage (flags.go lines 534 to 541). -/
def AppendMessage (message : String) (newMessage : String) : String :=
  if message ≠ "" then message ++ "\n" ++ newMessage else newMessage

/-- The conventional default config location. -/
def defaultConfigLoc : String := "~/.config/fabric/config.yaml"

/-- Modelled from the spec: util.GetDefaultConfigPath is repository code not
present under src. Per spec section 4.3, when the caller supplies no explicit
path the resolver falls back to a conventional default location, and when
that default does not exist resolution proceeds with CLI values only; so the
model returns the conventional location when it exists in the filesystem and
the empty string otherwise. -/
def getDefaultConfigPath (fs : FileSystem) : String :=
  match fs defaultConfigLoc with
  | some _ => defaultConfigLoc
  | none => ""

/-- The fatal outcomes of Init. -/
inductive InitError where
  | parseErr
  | configNotFound
  | configParseError
  | ioErr
  deriving DecidableEq, Repr

/-- The positional part of the input assembly (flags.go lines 197 to 199):
when leftover positionals remain, append the last one to the message. -/
def assembleMessage (v : List FieldValue) (pos : List String) : List FieldValue :=
  match pos.getLast? with
  | some lastArg => setF v "Message" (.str (AppendMessage (getStr v "Message") lastArg))
  | none => v

/-- The default-config fallback of Init (flags.go lines 148 to 156): when the
Config field parsed empty and the spec-modelled default path is nonempty, it
is written into the Config field. -/
def applyDefaultConfig (fs : FileSystem) (v : List FieldValue) : List FieldValue :=
  if getStr v "Config" = "" then
    let dp := getDefaultConfigPath fs
    if dp ≠ "" then setF v "Config" (.str dp) else v
  else v

/-- The config-load-and-merge step of Init (flags.go lines 158 to 190): a
nonempty Config field triggers the load, whose failure aborts Init; on
success the YAML-apply loop runs over every field. -/
def configStep (fs : FileSystem) (used : List String) (v : List FieldValue) :
    Except InitError (List FieldValue) :=
  if getStr v "Config" ≠ "" then
    match loadYAMLConfig fs (getStr v "Config") with
    | .error .notFound => .error .configNotFound
    | .error .parseError => .error .configParseError
    | .ok yamlFlags => .ok (mergeFields schema v yamlFlags used)
  else .ok v

/-- The input assembly of Init (flags.go lines 192 to 207): the last leftover
positional is appended first; then, when stdin is piped, the accumulated
piped text is appended, a failing read aborting Init. -/
def messageSteps (stdinPiped : Bool) (stdin : StdinSrc) (pos : List String)
    (v : List FieldValue) : Except InitError (List FieldValue) :=
  let v1 := assembleMessage v pos
  if stdinPiped then
    match readStdin stdin with
    | .error _ => .error .ioErr
    | .ok pipedMessage =>
      .ok (setF v1 "Message" (.str (AppendMessage (getStr v1 "Message") pipedMessage)))
  else .ok v1

/-- Init (flags.go lines 103 to 209). The structured go-flags parse is
library code and enters as an oracle: its outcome is either a parse failure
or a typed Flags vector (carrying the declared defaults for options not
supplied) together with the leftover positional tokens. The pre-scan runs on
the raw argument list; then the steps above in source order. -/
def runInit (parseOut : Except Unit (List FieldValue × List String))
    (args : List String) (fs : FileSystem)
    (stdinPiped : Bool) (stdin : StdinSrc) : Except InitError (List FieldValue) :=
  match parseOut with
  | .error _ => .error .parseErr
  | .ok (ret0, pos) =>
    match configStep fs (usedFlagsList args) (applyDefaultConfig fs ret0) with
    | .error e => .error e
    | .ok ret2 => messageSteps stdinPiped stdin pos ret2

/-- The Flags vector produced by a go-flags parse of a command line that sets
nothing: every field carries its declared default tag value, or the Go zero
value when the tag is absent (spec section 4.2: on success, every Option not
explicitly supplied takes its declared default). -/
def parsedDefaults : List FieldValue := [
  .str "", .strMap [], .str "", .str "", .strList [], .bool false,
  .float (mkRat 7 10), .float (mkRat 9 10), .bool false, .float (mkRat 0 1),
  .bool false, .float (mkRat 0 1), .bool false, .bool false, .bool false, .bool false,
  .bool false, .str "", .bool false, .str "", .int 0, .str "", .bool false,
  .str "0", .bool false, .str "", .bool false, .bool false, .bool false,
  .bool false, .bool false, .str "", .str "", .str "", .int 0, .str "",
  .str "", .str "", .str "", .bool false, .bool false, .bool false,
  .bool false, .bool false, .str ":8080", .str "", .str "", .bool false,
  .bool false, .str "", .str "", .str "", .bool false, .bool false,
  .bool false, .bool false, .str "", .str "", .str "", .str "", .int 0,
  .str "", .bool false, .str "<think>", .str "</think>", .bool false,
  .str "Kore", .bool false]

/-- Default placeholder field for out-of-range schema access. -/
def dFF : FlagField := ⟨"", "", "", "", .str⟩

/-- Concatenation of a list of strings, for stating what the readStdin loop
accumulates. -/
def strConcat : List String → String
  | [] => ""
  | l :: ls => l ++ strConcat ls

/-- The pre-scan extraction rule exactly as the claim words it: classify long
form (two-character prefix) or short form (single-character prefix with
additional characters), strip the prefix, and keep only the portion before
any value separator. This definition follows the claim words, for comparison
with extractFlag. -/
def specExtractClaim (arg : String) : String :=
  if strStartsWith arg "--" then
    ⟨(strDrop arg 2).data.takeWhile (fun c => !(c == '='))⟩
  else if strStartsWith arg "-" && strLen arg > 1 then
    ⟨(strDrop arg 1).data.takeWhile (fun c => !(c == '='))⟩
  else ""

/-- The amended extraction rule: as the claim, except that the cut at the
value separator happens only when the portion before it is nonempty; a
remainder beginning with the separator is kept whole. This definition follows
the amended claim words, for comparison with extractFlag. -/
def specExtractAmended (arg : String) : String :=
  if strStartsWith arg "--" then
    let r := strDrop arg 2
    let cut := r.data.takeWhile (fun c => !(c == '='))
    if r.data.contains '=' && !cut.isEmpty then ⟨cut⟩ else r
  else if strStartsWith arg "-" && strLen arg > 1 then
    let r := strDrop arg 1
    let cut := r.data.takeWhile (fun c => !(c == '='))
    if r.data.contains '=' && !cut.isEmpty then ⟨cut⟩ else r
  else ""

/-- Filesystem with no files at all. -/
def fsNone : FileSystem := fun _ => none

/-- Filesystem with an empty (but well-formed) mapping at the default config
location. -/
def fsEmptyCfg : FileSystem :=
  fun p => if p = defaultConfigLoc then some (.parsed []) else none

/-- Filesystem whose default config sets temperature to 0.9. -/
def fsTemp09 : FileSystem :=
  fun p =>
    if p = defaultConfigLoc then some (.parsed [("temperature", .float (mkRat 9 10))])
    else none

/-- Filesystem whose default config contains the quoted scalar seed: "7". -/
def fsSeedStr7 : FileSystem :=
  fun p =>
    if p = defaultConfigLoc then some (.parsed [("seed", .str "7")])
    else none

/-- A piped stdin that is immediately at end-of-stream. -/
def emptyStdin : StdinSrc := ⟨[], .eof ""⟩

/-- The parse oracle output for the command line -t 0.2: the defaults with
temperature replaced (index 6 is Temperature). -/
def parsedTemp02 : List FieldValue := parsedDefaults.set 6 (.float (mkRat 2 10))

/-- The concrete final vector of the run used to witness the CLI-wins
property. -/
def c1FinalVec : List FieldValue :=
  (runInit (.ok (parsedTemp02, [])) ["-t"] fsTemp09 false emptyStdin).toOption.getD []

/-- The parse oracle output for an explicit --config /nope: the defaults with
the Config field (index 46) replaced. -/
def parsedWithCfg : List FieldValue := parsedDefaults.set 46 (.str "/nope")

/-- The concrete final vector of the run used to witness the input-assembly
property (scenario with piped stdin and no positionals). -/
def c6FinalVec : List FieldValue :=
  (runInit (.ok (parsedDefaults, [])) [] fsNone true
    ⟨["line1\n", "line2\n"], .eof ""⟩).toOption.getD []

/-- Two strings with the same character data are equal. -/
theorem strExt (a b : String) (h : a.data = b.data) : a = b :=
  congrArg String.mk h

/-- Membership in one pre-scan step: the step only ever adds the yaml tag
mapped from the extracted flag of its argument. -/
theorem mem_scanStep (used : List String) (arg : String) (y : String) :
    y ∈ scanStep used arg ↔
      y ∈ used ∨ (extractFlag arg ≠ "" ∧ flagToYamlTag (extractFlag arg) = some y) := by
  simp only [scanStep]
  by_cases h1 : extractFlag arg = ""
  · simp [h1]
  · rw [if_pos h1]
    cases h2 : flagToYamlTag (extractFlag arg) with
    | none => simp [h2]
    | some z =>
      simp only [h2]
      by_cases h3 : z ∈ used
      · rw [if_pos h3]
        constructor
        · exact fun hy => Or.inl hy
        · rintro (hy | ⟨-, hz⟩)
          · exact hy
          · obtain rfl := Option.some.inj hz
            exact h3
      · rw [if_neg h3]
        simp only [List.mem_append, List.mem_singleton]
        constructor
        · rintro (hy | rfl)
          · exact Or.inl hy
          · exact Or.inr ⟨h1, rfl⟩
        · rintro (hy | ⟨-, hz⟩)
          · exact Or.inl hy
          · obtain rfl := Option.some.inj hz
            exact Or.inr rfl

/-- A pre-scan step on an argument that extracts nothing or maps to no yaml
tag leaves the used set unchanged. -/
theorem scanStep_noop (used : List String) (arg : String)
    (h : extractFlag arg = "" ∨ flagToYamlTag (extractFlag arg) = none) :
    scanStep used arg = used := by
  simp only [scanStep]
  rcases h with h | h
  · simp [h]
  · by_cases h1 : extractFlag arg = ""
    · simp [h1]
    · simp [h1, h]

/-- Membership in the pre-scan fold from an arbitrary accumulator. -/
theorem mem_usedFold (args : List String) (acc : List String) (y : String) :
    y ∈ args.foldl scanStep acc ↔
      y ∈ acc ∨ ∃ t ∈ args,
        extractFlag t ≠ "" ∧ flagToYamlTag (extractFlag t) = some y := by
  induction args generalizing acc with
  | nil => simp
  | cons a as ih =>
    rw [List.foldl_cons, ih, mem_scanStep]
    constructor
    · intro h
      rcases h with (h | h) | ⟨t, ht, hs⟩
      · exact Or.inl h
      · exact Or.inr ⟨a, List.mem_cons_self a as, h⟩
      · exact Or.inr ⟨t, List.mem_cons_of_mem a ht, hs⟩
    · intro h
      rcases h with h | ⟨t, ht, hs⟩
      · exact Or.inl (Or.inl h)
      · rcases List.mem_cons.mp ht with rfl | ht
        · exact Or.inl (Or.inr hs)
        · exact Or.inr ⟨t, ht, hs⟩

/-- Membership in UsedFlagSet: a yaml tag is recorded exactly when some raw
token extracts to a flag name mapping to it. -/
theorem mem_usedFlagsList (args : List String) (y : String) :
    y ∈ usedFlagsList args ↔
      ∃ t ∈ args, extractFlag t ≠ "" ∧ flagToYamlTag (extractFlag t) = some y := by
  unfold usedFlagsList
  rw [mem_usedFold]
  simp

/-- Inserting an advisory-ignored token anywhere in the argument list leaves
the pre-scan result unchanged. -/
theorem usedFlagsList_ignore (l r : List String) (t : String)
    (h : extractFlag t = "" ∨ flagToYamlTag (extractFlag t) = none) :
    usedFlagsList (l ++ t :: r) = usedFlagsList (l ++ r) := by
  unfold usedFlagsList
  rw [List.foldl_append, List.foldl_append, List.foldl_cons, scanStep_noop _ _ h]

/-- Writing one list position leaves every other position unchanged. -/
theorem getD_set_ne (l : List FieldValue) : ∀ (j i : Nat) (x : FieldValue),
    j ≠ i → (l.set j x).getD i dfv = l.getD i dfv := by
  induction l with
  | nil => intro j i x _; rfl
  | cons a t ih =>
    intro j i x h
    cases j with
    | zero =>
      cases i with
      | zero => exact absurd rfl h
      | succ n => rfl
    | succ m =>
      cases i with
      | zero => rfl
      | succ n => exact ih m n x (fun hc => h (by rw [hc]))

/-- Writing an in-range list position stores the written value there. -/
theorem getD_set_self (l : List FieldValue) : ∀ (i : Nat) (x : FieldValue),
    i < l.length → (l.set i x).getD i dfv = x := by
  induction l with
  | nil => intro i x h; exact absurd h (by simp)
  | cons a t ih =>
    intro i x h
    cases i with
    | zero => rfl
    | succ n => exact ih n x (Nat.lt_of_succ_lt_succ h)

/-- Setting preserves length (restatement of the library lemma at the value
type used here). -/
theorem length_set (l : List FieldValue) (i : Nat) (x : FieldValue) :
    (l.set i x).length = l.length := List.length_set l i x

/-- The merge leaves a field at its parsed value when the field has no yaml
tag or its yaml tag was recorded by the pre-scan. -/
theorem mergeOne_skip (f : FlagField) (rv yv : FieldValue) (used : List String)
    (h : f.yamlTag = "" ∨ f.yamlTag ∈ used) : mergeOne f rv yv used = rv := by
  unfold mergeOne
  rcases h with h | h
  · simp [h]
  · by_cases h1 : f.yamlTag = ""
    · simp [h1]
    · simp [h1, h]

/-- Pointwise description of the merge: in range it applies mergeOne to the
corresponding field descriptor and values, and out of range it keeps the
parsed values. -/
theorem mergeFields_getD (fs : List FlagField) :
    ∀ (rvs yvs : List FieldValue) (used : List String) (i : Nat),
    (mergeFields fs rvs yvs used).getD i dfv =
      if i < fs.length ∧ i < rvs.length ∧ i < yvs.length then
        mergeOne (fs.getD i dFF) (rvs.getD i dfv) (yvs.getD i dfv) used
      else rvs.getD i dfv := by
  induction fs with
  | nil =>
    intro rvs yvs used i
    simp [mergeFields]
  | cons f fs ih =>
    intro rvs yvs used i
    cases rvs with
    | nil => simp [mergeFields]
    | cons rv rvs =>
      cases yvs with
      | nil => simp [mergeFields]
      | cons yv yvs =>
        cases i with
        | zero => simp [mergeFields]
        | succ n =>
          simp only [mergeFields, List.getD_cons_succ, ih, List.length_cons,
            Nat.succ_lt_succ_iff]

/-- The merge preserves the length of the parsed vector. -/
theorem mergeFields_length (fs : List FlagField) :
    ∀ (rvs yvs : List FieldValue) (used : List String),
    (mergeFields fs rvs yvs used).length = rvs.length := by
  induction fs with
  | nil => intro rvs yvs used; rfl
  | cons f fs ih =>
    intro rvs yvs used
    cases rvs with
    | nil => rfl
    | cons rv rvs =>
      cases yvs with
      | nil => rfl
      | cons yv yvs => simp [mergeFields, ih]

/-- A yaml-tagged schema position is not the Config position (the Config
field has no yaml tag). -/
theorem yaml_ne_configIdx (i : Nat) (h : (schema.getD i dFF).yamlTag ≠ "") :
    i ≠ fieldIdx "Config" := by
  intro hi
  subst hi
  exact h rfl

/-- A yaml-tagged schema position is not the Message position (the Message
field has no yaml tag). -/
theorem yaml_ne_messageIdx (i : Nat) (h : (schema.getD i dFF).yamlTag ≠ "") :
    i ≠ fieldIdx "Message" := by
  intro hi
  subst hi
  exact h rfl

/-- For every yaml-tagged schema entry, the flag-name map sends its short and
long tags to its own yaml tag. -/
theorem schema_tags_map : ∀ i, i < schema.length →
    ((schema.getD i dFF).yamlTag ≠ "" →
      (((schema.getD i dFF).shortTag ≠ "" →
        flagToYamlTag ((schema.getD i dFF).shortTag) =
          some ((schema.getD i dFF).yamlTag)) ∧
      ((schema.getD i dFF).longTag ≠ "" →
        flagToYamlTag ((schema.getD i dFF).longTag) =
          some ((schema.getD i dFF).yamlTag)))) := by decide

/-- The default-config step only ever writes the Config field. -/
theorem applyDefaultConfig_getD (fs : FileSystem) (v : List FieldValue) (i : Nat)
    (hi : i ≠ fieldIdx "Config") :
    (applyDefaultConfig fs v).getD i dfv = v.getD i dfv := by
  simp only [applyDefaultConfig, setF]
  split_ifs with h1 h2
  · exact getD_set_ne v (fieldIdx "Config") i _ (fun hc => hi hc.symm)
  · rfl
  · rfl

/-- The default-config step changes length of nothing. -/
theorem applyDefaultConfig_length (fs : FileSystem) (v : List FieldValue) :
    (applyDefaultConfig fs v).length = v.length := by
  simp only [applyDefaultConfig, setF]
  split_ifs with h1 h2
  · exact List.length_set v _ _
  · rfl
  · rfl

/-- A successful config step either skipped the load (empty Config field) or
merged a successfully loaded config. -/
theorem configStep_ok_cases (fs : FileSystem) (used : List String)
    (v w : List FieldValue) (h : configStep fs used v = .ok w) :
    w = v ∨ ∃ yml, loadYAMLConfig fs (getStr v "Config") = .ok yml ∧
      w = mergeFields schema v yml used := by
  unfold configStep at h
  by_cases h1 : getStr v "Config" ≠ ""
  · rw [if_pos h1] at h
    cases h2 : loadYAMLConfig fs (getStr v "Config") with
    | error e =>
      rw [h2] at h
      cases e <;> simp at h
    | ok yml =>
      rw [h2] at h
      simp only [] at h
      exact Or.inr ⟨yml, rfl, (Except.ok.inj h).symm⟩
  · rw [if_neg h1] at h
    exact Or.inl (Except.ok.inj h).symm

/-- A successful config step leaves every field whose yaml tag is absent or
recorded as used at its parsed value. -/
theorem configStep_ok_getD (fs : FileSystem) (used : List String)
    (v w : List FieldValue) (i : Nat)
    (hok : configStep fs used v = .ok w)
    (hskip : (schema.getD i dFF).yamlTag = "" ∨ (schema.getD i dFF).yamlTag ∈ used) :
    w.getD i dfv = v.getD i dfv := by
  rcases configStep_ok_cases fs used v w hok with rfl | ⟨yml, -, rfl⟩
  · rfl
  · rw [mergeFields_getD]
    split_ifs with h
    · exact mergeOne_skip _ _ _ _ hskip
    · rfl

/-- A successful config step preserves length. -/
theorem configStep_ok_length (fs : FileSystem) (used : List String)
    (v w : List FieldValue) (hok : configStep fs used v = .ok w) :
    w.length = v.length := by
  rcases configStep_ok_cases fs used v w hok with rfl | ⟨yml, -, rfl⟩
  · rfl
  · exact mergeFields_length schema v yml used

/-- The positional assembly only ever writes the Message field. -/
theorem assembleMessage_getD_ne (v : List FieldValue) (pos : List String) (i : Nat)
    (hi : i ≠ fieldIdx "Message") :
    (assembleMessage v pos).getD i dfv = v.getD i dfv := by
  unfold assembleMessage
  cases hl : pos.getLast? with
  | none => rfl
  | some lastArg =>
    exact getD_set_ne v (fieldIdx "Message") i _ (fun hc => hi hc.symm)

/-- The positional assembly preserves length. -/
theorem assembleMessage_length (v : List FieldValue) (pos : List String) :
    (assembleMessage v pos).length = v.length := by
  unfold assembleMessage
  cases hl : pos.getLast? with
  | none => rfl
  | some lastArg => exact List.length_set v _ _

/-- The input assembly only ever writes the Message field. -/
theorem messageSteps_ok_getD (piped : Bool) (stdin : StdinSrc) (pos : List String)
    (v w : List FieldValue) (i : Nat) (hi : i ≠ fieldIdx "Message")
    (hok : messageSteps piped stdin pos v = .ok w) :
    w.getD i dfv = v.getD i dfv := by
  unfold messageSteps at hok
  cases piped with
  | false =>
    obtain rfl := (Except.ok.inj hok).symm
    exact assembleMessage_getD_ne v pos i hi
  | true =>
    cases hr : readStdin stdin with
    | error e => rw [hr] at hok; simp at hok
    | ok m =>
      rw [hr] at hok
      obtain rfl := (Except.ok.inj hok).symm
      rw [setF, getD_set_ne _ (fieldIdx "Message") i _ (fun hc => hi hc.symm)]
      exact assembleMessage_getD_ne v pos i hi

/-- A successful Init run decomposes into its three steps. -/
theorem runInit_ok_elim (ret : List FieldValue) (pos args : List String)
    (fs : FileSystem) (piped : Bool) (stdin : StdinSrc) (final : List FieldValue)
    (h : runInit (.ok (ret, pos)) args fs piped stdin = .ok final) :
    ∃ ret2, configStep fs (usedFlagsList args) (applyDefaultConfig fs ret) = .ok ret2 ∧
      messageSteps piped stdin pos ret2 = .ok final := by
  dsimp only [runInit] at h
  cases hc : configStep fs (usedFlagsList args) (applyDefaultConfig fs ret) with
  | error e => rw [hc] at h; simp at h
  | ok ret2 =>
    rw [hc] at h
    exact ⟨ret2, rfl, h⟩

/-- C1: for every option with a config-file key, if one of its CLI invocation
names appears as a flag-shaped token anywhere in the raw token list, the final
ResolvedOptions value of that option equals the CLI-parsed value — the
config-file value never overwrites it, whatever the config file contains and
even when the CLI-supplied value equals the schema default (the hypothesis is
about raw token presence only, never about the parsed value). -/
theorem c1_cli_flag_wins
    (args : List String) (fs : FileSystem) (piped : Bool) (stdin : StdinSrc)
    (ret final : List FieldValue) (pos : List String)
    (i : Nat) (hi : i < schema.length)
    (hyaml : (schema.getD i dFF).yamlTag ≠ "")
    (t : String) (ht : t ∈ args)
    (hname : (extractFlag t = (schema.getD i dFF).shortTag ∧ (schema.getD i dFF).shortTag ≠ "")
           ∨ (extractFlag t = (schema.getD i dFF).longTag ∧ (schema.getD i dFF).longTag ≠ ""))
    (hrun : runInit (.ok (ret, pos)) args fs piped stdin = .ok final) :
    final.getD i dfv = ret.getD i dfv := by
  obtain ⟨ret2, hcfg, hmsg⟩ := runInit_ok_elim ret pos args fs piped stdin final hrun
  have hmap := schema_tags_map i hi hyaml
  have hmem : (schema.getD i dFF).yamlTag ∈ usedFlagsList args := by
    rw [mem_usedFlagsList]
    rcases hname with ⟨he, hne⟩ | ⟨he, hne⟩
    · exact ⟨t, ht, by rw [he]; exact hne, by rw [he]; exact hmap.1 hne⟩
    · exact ⟨t, ht, by rw [he]; exact hne, by rw [he]; exact hmap.2 hne⟩
  rw [messageSteps_ok_getD piped stdin pos ret2 final i (yaml_ne_messageIdx i hyaml) hmsg,
    configStep_ok_getD fs (usedFlagsList args) (applyDefaultConfig fs ret) ret2 i hcfg
      (Or.inr hmem),
    applyDefaultConfig_getD fs ret i (yaml_ne_configIdx i hyaml)]

/-- Witness for c1_cli_flag_wins: the command line -t 0.2 with a config file
setting temperature to 0.9 resolves to the CLI temperature 0.2 (its parsed
value at index 6). -/
theorem c1_cli_flag_wins_witness :
    c1FinalVec.getD 6 dfv = parsedTemp02.getD 6 dfv :=
  c1_cli_flag_wins ["-t"] fsTemp09 false emptyStdin parsedTemp02 c1FinalVec [] 6
    (by decide) (by decide) "-t" (by decide) (Or.inl ⟨by decide, by decide⟩) (by rfl)

/-- C8: the precedence merge modifies only fields carrying a yaml config key;
a field without one keeps its CLI-parsed value whatever the config file
decoded to and whatever the pre-scan recorded. -/
theorem c8_merge_frame (ret yml : List FieldValue) (used : List String) (i : Nat)
    (hyaml : (schema.getD i dFF).yamlTag = "") :
    (mergeFields schema ret yml used).getD i dfv = ret.getD i dfv := by
  rw [mergeFields_getD]
  split_ifs with h
  · exact mergeOne_skip _ _ _ _ (Or.inl hyaml)
  · rfl

/-- Witness for c8_merge_frame: the Output field (index 21, no yaml key) is
untouched by a merge. -/
theorem c8_merge_frame_witness :
    (mergeFields schema parsedDefaults parsedDefaults ["model"]).getD 21 dfv =
      parsedDefaults.getD 21 dfv :=
  c8_merge_frame parsedDefaults parsedDefaults ["model"] 21 (by decide)

/-- C9: resolution is deterministic — two runs with identical parse outcome,
raw tokens, filesystem, stdin interactivity and stdin content produce
identical results (the model is a pure function of exactly these inputs). -/
theorem c9_deterministic
    (p1 p2 : Except Unit (List FieldValue × List String)) (a1 a2 : List String)
    (f1 f2 : FileSystem) (s1 s2 : Bool) (st1 st2 : StdinSrc)
    (hp : p1 = p2) (ha : a1 = a2) (hf : f1 = f2) (hs : s1 = s2) (hst : st1 = st2) :
    runInit p1 a1 f1 s1 st1 = runInit p2 a2 f2 s2 st2 := by
  subst hp
  subst ha
  subst hf
  subst hs
  subst hst
  rfl

/-- Witness for c9_deterministic at a concrete run. -/
theorem c9_deterministic_witness :
    runInit (.ok (parsedDefaults, [])) [] fsNone false emptyStdin =
      runInit (.ok (parsedDefaults, [])) [] fsNone false emptyStdin :=
  c9_deterministic _ _ _ _ _ _ _ _ _ _ rfl rfl rfl rfl rfl

/-- C10: the pre-scanner looks up the whole dash-stripped remainder of a
short-form token as one name and never splits it into individual short flags:
a bundled token records nothing when the concatenation matches no schema name
(for the concrete bundle -sp, even though s and p are both valid short
names), and the bare dash and double-dash tokens are never recorded. -/
theorem c10_no_bundle_split :
    (∀ l r t, flagToYamlTag (extractFlag t) = none →
      usedFlagsList (l ++ t :: r) = usedFlagsList (l ++ r)) ∧
    extractFlag "-sp" = "sp" ∧
    flagToYamlTag "s" = some "stream" ∧
    flagToYamlTag "p" = some "pattern" ∧
    flagToYamlTag "sp" = none ∧
    usedFlagsList ["-sp"] = [] ∧
    extractFlag "-" = "" ∧
    extractFlag "--" = "" ∧
    usedFlagsList ["-", "--"] = [] := by
  refine ⟨fun l r t h => usedFlagsList_ignore l r t (Or.inr h), ?_, ?_, ?_, ?_, ?_, ?_, ?_, ?_⟩
  all_goals decide

/-- Witness for c10_no_bundle_split: inserting -sp into a token list changes
nothing in the used set. -/
theorem c10_no_bundle_split_witness :
    usedFlagsList (["--model=x"] ++ "-sp" :: []) = usedFlagsList (["--model=x"] ++ []) :=
  c10_no_bundle_split.1 ["--model=x"] [] "-sp" (by decide)

/-- C2 fails on the code: with an empty command line and a loaded config file
that is an empty mapping, the Temperature field ends at the zero value 0
instead of the parsed default 0.7. The yaml struct is decoded into a fresh
zero-valued Flags value, so a key absent from the file leaves the zero value
there, and the merge then copies that zero over the parsed default. -/
theorem c2_absent_key_clobbers_default :
    getF parsedDefaults "Temperature" = .float (mkRat 7 10) ∧
    (runInit (.ok (parsedDefaults, [])) [] fsEmptyCfg false emptyStdin).map
      (fun v => getF v "Temperature") = .ok (.float (mkRat 0 1)) ∧
    mkRat 0 1 ≠ mkRat 7 10 :=
  ⟨rfl, rfl, by decide⟩

/-- C3: the conversion function itself behaves as described — the text 42.9
converts to the integer 42, true and false convert to the booleans, and
non-numeric text fails so that the merge keeps the pre-merge value and
continues — but the pipeline scenario fails on the code: a config file
containing seed: "7" makes Init abort with the config-parse error, because
yaml.v3 refuses to decode a quoted string into the int field and the
conversion branch of the merge never runs (both merge operands are fields of
the same struct type). -/
theorem c3_coercion_behavior_and_fatal_seed :
    assignWithConversion (.int 0) (.str "42.9") = some (.int 42) ∧
    assignWithConversion (.bool false) (.str "true") = some (.bool true) ∧
    assignWithConversion (.bool true) (.str "false") = some (.bool false) ∧
    assignWithConversion (.int 5) (.str "abc") = none ∧
    mergeOne ⟨"Seed", "e", "seed", "seed", .int⟩ (.int 5) (.str "abc") [] = .int 5 ∧
    runInit (.ok (parsedDefaults, [])) [] fsSeedStr7 false emptyStdin =
      .error .configParseError :=
  ⟨by decide, by decide, by decide, by decide, by decide, rfl⟩

/-- String append is associative (via the underlying character data). -/
theorem strAppend_assoc (a b c : String) : a ++ b ++ c = a ++ (b ++ c) :=
  strExt _ _ (List.append_assoc a.data b.data c.data)

/-- The empty string is a left unit for append. -/
theorem strEmpty_append (a : String) : "" ++ a = a := rfl

/-- The readStdin loop with an end-of-stream outcome accumulates every chunk
after the builder contents. -/
theorem readStdinAux_eof (lines : List String) : ∀ (acc tail : String),
    readStdinAux acc lines (.eof tail) = .ok (acc ++ (strConcat lines ++ tail)) := by
  induction lines with
  | nil =>
    intro acc tail
    simp only [readStdinAux, strConcat]
    rw [strEmpty_append]
  | cons l ls ih =>
    intro acc tail
    simp only [readStdinAux, strConcat]
    rw [ih (acc ++ l) tail, strAppend_assoc acc l (strConcat ls ++ tail),
      strAppend_assoc l (strConcat ls) tail]

/-- The readStdin loop with a non-end-of-stream failure reports the error
whatever was accumulated. -/
theorem readStdinAux_err (lines : List String) : ∀ acc : String,
    readStdinAux acc lines .ioErr = .error () := by
  induction lines with
  | nil => intro acc; rfl
  | cons l ls ih => intro acc; exact ih (acc ++ l)

/-- C7: reading piped standard input accumulates content until end-of-stream,
including a final chunk not terminated by a newline, and fails exactly when
the underlying read fails for a reason other than end-of-stream. -/
theorem c7_read_stdin (s : StdinSrc) :
    (∀ tail, s.fin = .eof tail → readStdin s = .ok (strConcat s.lines ++ tail)) ∧
    (s.fin = .ioErr → readStdin s = .error ()) := by
  constructor
  · intro tail hf
    unfold readStdin
    rw [hf, readStdinAux_eof, strEmpty_append]
  · intro hf
    unfold readStdin
    rw [hf, readStdinAux_err]

/-- Witness for c7_read_stdin: two newline-terminated reads and an
unterminated final chunk accumulate verbatim. -/
theorem c7_read_stdin_witness :
    readStdin ⟨["line1\n", "line2\n"], .eof "tail"⟩ =
      .ok (strConcat ["line1\n", "line2\n"] ++ "tail") :=
  (c7_read_stdin ⟨["line1\n", "line2\n"], .eof "tail"⟩).1 "tail" rfl

/-- C5: an explicitly supplied config path fails fatally with the
config-not-found error when it resolves to no file, and with the config-parse
error when the bytes are invalid for the format; with no supplied path and no
default config present, resolution completes without error on CLI values
alone (stated with stdin not piped, so no input-reading failure can
interfere). -/
theorem c5_config_errors
    (ret : List FieldValue) (pos args : List String) (fs : FileSystem)
    (piped : Bool) (stdin : StdinSrc) (p : String) :
    (getF ret "Config" = .str p → p ≠ "" → fs p = none →
      runInit (.ok (ret, pos)) args fs piped stdin = .error .configNotFound) ∧
    (getF ret "Config" = .str p → p ≠ "" → fs p = some .malformed →
      runInit (.ok (ret, pos)) args fs piped stdin = .error .configParseError) ∧
    (getF ret "Config" = .str "" → fs defaultConfigLoc = none →
      runInit (.ok (ret, pos)) args fs false stdin = .ok (assembleMessage ret pos)) := by
  refine ⟨?_, ?_, ?_⟩
  · intro h1 h2 h3
    have hgs : getStr ret "Config" = p := by unfold getStr; rw [h1]
    have hap : applyDefaultConfig fs ret = ret := by
      unfold applyDefaultConfig
      rw [hgs, if_neg h2]
    dsimp only [runInit]
    rw [hap]
    have hcs : configStep fs (usedFlagsList args) ret =
        Except.error InitError.configNotFound := by
      unfold configStep loadYAMLConfig
      rw [hgs, if_pos h2, h3]
    rw [hcs]
  · intro h1 h2 h3
    have hgs : getStr ret "Config" = p := by unfold getStr; rw [h1]
    have hap : applyDefaultConfig fs ret = ret := by
      unfold applyDefaultConfig
      rw [hgs, if_neg h2]
    dsimp only [runInit]
    rw [hap]
    have hcs : configStep fs (usedFlagsList args) ret =
        Except.error InitError.configParseError := by
      unfold configStep loadYAMLConfig
      rw [hgs, if_pos h2, h3]
    rw [hcs]
  · intro h1 h2
    have hgs : getStr ret "Config" = "" := by unfold getStr; rw [h1]
    have hdp : getDefaultConfigPath fs = "" := by
      unfold getDefaultConfigPath
      rw [h2]
    have hap : applyDefaultConfig fs ret = ret := by
      unfold applyDefaultConfig
      rw [hgs, if_pos rfl, hdp, if_neg (by simp)]
    dsimp only [runInit]
    rw [hap]
    have hcs : configStep fs (usedFlagsList args) ret = Except.ok ret := by
      unfold configStep
      rw [hgs, if_neg (by simp)]
    rw [hcs]
    rfl

/-- Witness for c5_config_errors: an explicit path to a missing file aborts
with the config-not-found error. -/
theorem c5_config_errors_witness :
    runInit (.ok (parsedWithCfg, [])) [] fsNone false emptyStdin =
      .error .configNotFound :=
  (c5_config_errors parsedWithCfg [] [] fsNone false emptyStdin "/nope").1
    (by decide) (by decide) rfl

/-- Containment of the separator character agrees with the index finder. -/
theorem contains_eq_isSome (cs : List Char) :
    cs.contains '=' = (cs.findIdx? (fun c => c == '=')).isSome := by
  induction cs with
  | nil => rfl
  | cons c cs ih =>
    by_cases h : c = '='
    · subst h
      simp [List.contains_cons, List.findIdx?_cons]
    · have h1 : ('=' == c) = false := by simp [Ne.symm h]
      have h2 : (c == '=') = false := by simp [h]
      rw [List.contains_cons, List.findIdx?_cons, h1, h2]
      simp only [Bool.false_or, Bool.false_eq_true, if_false]
      rw [List.findIdx?_succ, ih]
      cases cs.findIdx? (fun c => c == '=') with
      | none => rfl
      | some j => rfl

/-- Taking up to the found separator index is taking while the separator is
not seen. -/
theorem take_findIdx_eq_takeWhile (cs : List Char) : ∀ j : Nat,
    cs.findIdx? (fun c => c == '=') = some j →
    cs.take j = cs.takeWhile (fun c => !(c == '=')) := by
  induction cs with
  | nil =>
    intro j h
    rw [List.findIdx?_nil] at h
    exact Option.noConfusion h
  | cons c cs ih =>
    intro j h
    rw [List.findIdx?_cons] at h
    by_cases hc : (c == '=') = true
    · rw [if_pos hc] at h
      obtain rfl : j = 0 := (Option.some.inj h).symm
      simp [List.takeWhile_cons, hc]
    · rw [if_neg hc, List.findIdx?_succ] at h
      cases hfi : cs.findIdx? (fun c => c == '=') with
      | none =>
        rw [hfi] at h
        exact Option.noConfusion h
      | some j0 =>
        rw [hfi] at h
        obtain rfl : j = j0 + 1 := (Option.some.inj h).symm
        have hcb : (!(c == '=')) = true := by simp [hc]
        rw [List.take_succ_cons, List.takeWhile_cons, hcb, if_pos rfl, ih j0 hfi]

/-- cutEq in the amended claim form: the remainder is cut at the separator
exactly when the portion before the first separator is nonempty. -/
theorem cutEq_amended (r : String) :
    cutEq r =
      (if r.data.contains '=' && !(r.data.takeWhile (fun c => !(c == '='))).isEmpty
        then (⟨r.data.takeWhile (fun c => !(c == '='))⟩ : String) else r) := by
  unfold cutEq eqIndex
  cases h : r.data.findIdx? (fun c => c == '=') with
  | none =>
    have hc : r.data.contains '=' = false := by
      rw [contains_eq_isSome, h]
      rfl
    rw [hc]
    rfl
  | some j =>
    have hc : r.data.contains '=' = true := by
      rw [contains_eq_isSome, h]
      rfl
    have htake := take_findIdx_eq_takeWhile r.data j h
    dsimp only
    by_cases hj : 0 < j
    · have hne : r.data ≠ [] := by
        intro hnil
        rw [hnil, List.findIdx?_nil] at h
        exact Option.noConfusion h
      have htne : r.data.takeWhile (fun c => !(c == '=')) ≠ [] := by
        rw [← htake]
        intro hteq
        rcases List.take_eq_nil_iff.mp hteq with h0 | h0
        · exact Nat.ne_of_gt hj h0
        · exact hne h0
      have hbe : (!(r.data.takeWhile (fun c => !(c == '='))).isEmpty) = true := by
        cases hE : (r.data.takeWhile (fun c => !(c == '='))).isEmpty
        · rfl
        · exact absurd (List.isEmpty_iff.mp hE) htne
      rw [hc, hbe, if_pos hj]
      exact strExt _ _ htake
    · have hj0 : j = 0 := Nat.eq_zero_of_not_pos hj
      subst hj0
      rw [if_neg hj]
      cases hd : r.data with
      | nil =>
        rw [hd, List.findIdx?_nil] at h
        exact Option.noConfusion h
      | cons c cs =>
        have hc0 : (c == '=') = true := by
          rw [hd, List.findIdx?_cons] at h
          by_cases hcc : (c == '=') = true
          · exact hcc
          · rw [if_neg hcc, List.findIdx?_succ] at h
            cases hfi : cs.findIdx? (fun c => c == '=') with
            | none =>
              rw [hfi] at h
              exact Option.noConfusion h
            | some j0 =>
              rw [hfi] at h
              exact absurd (Option.some.inj h) (Nat.succ_ne_zero j0)
        have hwe : ((c :: cs).takeWhile (fun c => !(c == '='))).isEmpty = true := by
          rw [List.takeWhile_cons, hc0]
          rfl
        rw [hwe]
        simp

/-- C4 fails as stated at the token whose remainder begins with the value
separator: the claimed extraction (portion before any separator) yields the
empty name on the token, while the code keeps the whole remainder including
the separator. -/
theorem c4_counterexample :
    specExtractClaim "--=v" = "" ∧ extractFlag "--=v" = "=v" := by
  constructor
  · rfl
  · decide

/-- C4 amended: the pre-scanner extraction matches the claim once the cut at
the separator is restricted to a nonempty portion before it (a remainder
beginning with the separator is kept whole, and then matches no schema
entry); and the pre-scan never errors and ignores every token that is not
flag-shaped or maps to no schema entry. -/
theorem c4_extract_amended :
    (∀ arg, extractFlag arg = specExtractAmended arg) ∧
    (∀ l r t, extractFlag t = "" ∨ flagToYamlTag (extractFlag t) = none →
      usedFlagsList (l ++ t :: r) = usedFlagsList (l ++ r)) := by
  constructor
  · intro arg
    unfold extractFlag specExtractAmended
    by_cases h1 : strStartsWith arg "--" = true
    · rw [if_pos h1, if_pos h1]
      exact cutEq_amended (strDrop arg 2)
    · rw [if_neg h1, if_neg h1]
      by_cases h2 : (strStartsWith arg "-" && decide (strLen arg > 1)) = true
      · rw [if_pos h2, if_pos h2]
        exact cutEq_amended (strDrop arg 1)
      · rw [if_neg h2, if_neg h2]
  · exact usedFlagsList_ignore

/-- Witness for c4_extract_amended: a non-flag token is ignored by the
pre-scan. -/
theorem c4_extract_amended_witness :
    usedFlagsList (["-t"] ++ "hello" :: []) = usedFlagsList (["-t"] ++ []) :=
  c4_extract_amended.2 ["-t"] [] "hello" (Or.inl (by decide))

/-- Equal stored values at a name give equal string reads. -/
theorem getStr_eq_of_getD (v w : List FieldValue) (name : String)
    (h : v.getD (fieldIdx name) dfv = w.getD (fieldIdx name) dfv) :
    getStr v name = getStr w name := by
  unfold getStr getF
  rw [h]

/-- Reading back an in-range string write. -/
theorem getStr_setF_self (v : List FieldValue) (name : String) (s : String)
    (h : fieldIdx name < v.length) :
    getStr (setF v name (.str s)) name = s := by
  unfold getStr getF setF
  rw [getD_set_self v (fieldIdx name) _ h]

/-- readStdin on an end-of-stream source yields the concatenated content. -/
theorem readStdin_eof (lines : List String) (tail : String) :
    readStdin ⟨lines, .eof tail⟩ = .ok (strConcat lines ++ tail) := by
  unfold readStdin
  rw [readStdinAux_eof, strEmpty_append]

/-- C6: after the merge, the input assembler appends to the message only the
last leftover positional token (when any remain) and then, with standard
input piped, the full piped text verbatim; AppendMessage separates each
appended segment from prior nonempty content by a newline. The final message
is characterized in terms of the CLI-parsed message, the leftover positionals
and the piped text. -/
theorem c6_message_assembly
    (ret final : List FieldValue) (pos args : List String) (fs : FileSystem)
    (lines : List String) (tail : String)
    (hlen : ret.length = schema.length)
    (hrun : runInit (.ok (ret, pos)) args fs true ⟨lines, .eof tail⟩ = .ok final) :
    getStr final "Message" =
      AppendMessage
        (match pos.getLast? with
          | some lastTok => AppendMessage (getStr ret "Message") lastTok
          | none => getStr ret "Message")
        (strConcat lines ++ tail) := by
  obtain ⟨ret2, hcfg, hmsg⟩ :=
    runInit_ok_elim ret pos args fs true ⟨lines, .eof tail⟩ final hrun
  have hmd : ret2.getD (fieldIdx "Message") dfv = ret.getD (fieldIdx "Message") dfv := by
    rw [configStep_ok_getD _ _ _ _ _ hcfg (Or.inl (by decide)),
      applyDefaultConfig_getD fs ret _ (by decide)]
  have hm2 : getStr ret2 "Message" = getStr ret "Message" := getStr_eq_of_getD _ _ _ hmd
  have hl2 : ret2.length = ret.length := by
    rw [configStep_ok_length _ _ _ _ hcfg, applyDefaultConfig_length]
  unfold messageSteps at hmsg
  rw [readStdin_eof] at hmsg
  dsimp only at hmsg
  obtain rfl : _ = final := Except.ok.inj hmsg
  have hv1len : fieldIdx "Message" < (assembleMessage ret2 pos).length := by
    rw [assembleMessage_length, hl2, hlen]
    decide
  rw [getStr_setF_self _ _ _ hv1len]
  congr 1
  unfold assembleMessage
  cases hpl : pos.getLast? with
  | none => exact hm2
  | some lastTok =>
    rw [getStr_setF_self _ _ _ (by rw [hl2, hlen]; decide), hm2]

/-- Witness for c6_message_assembly: piped input of two lines with no
positional tokens (scenario F shape). -/
theorem c6_message_assembly_witness :
    getStr c6FinalVec "Message" =
      AppendMessage
        (match ([] : List String).getLast? with
          | some lastTok => AppendMessage (getStr parsedDefaults "Message") lastTok
          | none => getStr parsedDefaults "Message")
        (strConcat ["line1\n", "line2\n"] ++ "") :=
  c6_message_assembly parsedDefaults c6FinalVec [] [] fsNone ["line1\n", "line2\n"] ""
    (by decide) rfl

end Fabric
